import Mathlib

/-!
A shallow embedding of `src/DocumentManager.js` (the Brackets document /
working-set manager) together with proofs about its operations.

Modelling conventions:
* A `FileEntry` carries its `fullPath` plus an `idx` tag standing for JS
  object identity (each call of `projectRoot.getFile` allocates a fresh
  entry object; during restore the entry created for stored index `i` is
  tagged with `i`, so `===` on file entries is equality of the structure).
* A `Doc` models a `Document` object: `id` stands for object identity
  (each `new Document(...)` allocates a fresh object), `file` is the
  `file` field.  JS `==` / `===` on documents is structural equality here.
* `ManagerState` bundles the two module-level variables `_workingSet` and
  `_currentDocument`.  Operations return the updated state together with
  the list of jQuery events they dispatch, in dispatch order.
* `ProjectManager.isWithinProject` is passed in as a boolean predicate on
  full paths (`iw`).
* Machine integers: undo/redo depths are `Nat`s; `_savedUndoPosition` is
  an `Int` because the code stores the sentinel `-1` in it.
-/

structure FileEntry where
  idx : Nat
  fullPath : String
deriving DecidableEq, Repr

structure Doc where
  id : Nat
  file : FileEntry
deriving DecidableEq, Repr

/-- Result of `editor.historySize()`: undo and redo stack depths. -/
structure HistorySize where
  undo : Nat
  redo : Nat
deriving DecidableEq, Repr

/-- The mutable dirty-tracking fields of a `Document`: `isDirty` and
`_savedUndoPosition` (an `Int`, since the code assigns the sentinel `-1`). -/
structure DocDirty where
  isDirty : Bool
  savedUndoPosition : Int
deriving DecidableEq, Repr

/-- The module-level state of DocumentManager: `_workingSet` and
`_currentDocument`. -/
structure ManagerState where
  workingSet : List Doc
  currentDocument : Option Doc
deriving DecidableEq, Repr

/-- The jQuery events dispatched by the module, with their payloads. -/
inductive Event where
  | dirtyFlagChange (d : Doc)
  | currentDocumentChange
  | workingSetAdd (d : Doc)
  | workingSetRemove (d : Doc)
deriving DecidableEq, Repr

/-- `_findInWorkingSet(fileEntry)`: index of the first working-set entry
whose `file.fullPath` equals the given entry's, scanning from index 0;
`none` models the JS return value `-1`. -/
def findInWorkingSet (fe : FileEntry) : List Doc → Option Nat
  | [] => none
  | d :: rest =>
      if d.file.fullPath = fe.fullPath then some 0
      else (findInWorkingSet fe rest).map (· + 1)

/-- `getDocumentForFile(fileEntry)`: the current document if its path
matches, else the matching working-set entry, else `none`. -/
def getDocumentForFile (fe : FileEntry) (s : ManagerState) : Option Doc :=
  match s.currentDocument with
  | some cd =>
      if cd.file.fullPath = fe.fullPath then some cd
      else (findInWorkingSet fe s.workingSet).bind (fun i => s.workingSet[i]?)
  | none => (findInWorkingSet fe s.workingSet).bind (fun i => s.workingSet[i]?)

/-- The message of the error thrown by the `Document` constructor when the
file is already open. -/
def docExistsMsg (fe : FileEntry) : String :=
  "Creating a document + editor when one already exists, for: " ++ fe.fullPath

/-- The `Document(file, editor)` constructor's "already exists" guard:
if `getDocumentForFile(file)` is non-null it throws, else a fresh object
(identity `id`) with the given `file` field is produced.  (The
`instanceof` check and `_setEditor` concern the host language / widget and
are outside this model.) -/
def newDocument (id : Nat) (fe : FileEntry) (s : ManagerState) : Except String Doc :=
  if getDocumentForFile fe s ≠ none then .error (docExistsMsg fe)
  else .ok ⟨id, fe⟩

/-- `addToWorkingSet(document)`: no-op if the path is already present,
else append at the end and dispatch `workingSetAdd`. -/
def addToWorkingSet (d : Doc) (s : ManagerState) : ManagerState × List Event :=
  match findInWorkingSet d.file s.workingSet with
  | some _ => (s, [])
  | none => ({ s with workingSet := s.workingSet ++ [d] }, [Event.workingSetAdd d])

/-- `_removeFromWorkingSet(document)`: no-op if the path is absent, else
splice out the found index and dispatch `workingSetRemove`. -/
def removeFromWorkingSet (d : Doc) (s : ManagerState) : ManagerState × List Event :=
  match findInWorkingSet d.file s.workingSet with
  | none => (s, [])
  | some i =>
      ({ s with workingSet := s.workingSet.eraseIdx i }, [Event.workingSetRemove d])

/-- `showInEditor(document)`: no-op if already current; if the file lies
outside the project tree (`iw` false) first add it to the working set;
then set it current and dispatch `currentDocumentChange`. -/
def showInEditor (iw : String → Bool) (d : Doc) (s : ManagerState) :
    ManagerState × List Event :=
  if s.currentDocument = some d then (s, [])
  else
    let r := if iw d.file.fullPath then (s, []) else addToWorkingSet d s
    ({ r.1 with currentDocument := some d }, r.2 ++ [Event.currentDocumentChange])

/-- `_clearEditor()`: no-op if the editor is already blank, else clear
`_currentDocument` and dispatch `currentDocumentChange`. -/
def clearEditor (s : ManagerState) : ManagerState × List Event :=
  if s.currentDocument = none then (s, [])
  else ({ s with currentDocument := none }, [Event.currentDocumentChange])

/-- The replacement-selection logic of `closeDocument`: the `nextDocument`
local variable.  If the document is not in the working set, the bottommost
working-set item (if any); else the item below it if possible, else the
item above it, else none. -/
def closeNextDocument (d : Doc) (s : ManagerState) : Option Doc :=
  match findInWorkingSet d.file s.workingSet with
  | none => s.workingSet.getLast?
  | some i =>
      if i < s.workingSet.length - 1 then s.workingSet[i + 1]?
      else if 0 < i then s.workingSet[i - 1]?
      else none

/-- The first half of `closeDocument`, up to (and excluding) the
`console.assert` line: if the document is current, switch the editor to
the chosen replacement or blank it out. -/
def closeReplaceStep (iw : String → Bool) (d : Doc) (s : ManagerState) :
    ManagerState × List Event :=
  if s.currentDocument = some d then
    match closeNextDocument d s with
    | some nd => showInEditor iw nd s
    | none => clearEditor s
  else (s, [])

/-- `closeDocument(document)`: replacement selection (when current),
the asserted invariant point, then unconditional removal from the
working set. -/
def closeDocument (iw : String → Bool) (d : Doc) (s : ManagerState) :
    ManagerState × List Event :=
  let r1 := closeReplaceStep iw d s
  let r2 := removeFromWorkingSet d r1.1
  (r2.1, r1.2 ++ r2.2)

/-- `Document.prototype._setEditor`'s dirty-tracking initialization:
`isDirty` starts at the prototype default `false` and
`_savedUndoPosition` is set to `editor.historySize().undo`. -/
def initDirty (hist : HistorySize) : DocDirty :=
  ⟨false, (hist.undo : Int)⟩

/-- The `_savedUndoPosition` value after one `_updateDirty` call: the
sentinel `-1` when the undo depth has dropped below the save watermark
with an empty redo stack, else unchanged. -/
def savedAfter (hist : HistorySize) (d : DocDirty) : Int :=
  if (hist.undo : Int) < d.savedUndoPosition ∧ hist.redo = 0 then -1
  else d.savedUndoPosition

/-- The `newIsDirty` local of `_updateDirty`: current undo depth differs
from the (possibly just invalidated) save watermark. -/
def dirtyAfter (hist : HistorySize) (d : DocDirty) : Bool :=
  decide ((hist.undo : Int) ≠ savedAfter hist d)

/-- `Document.prototype._updateDirty`, invoked on every editor change
callback (`self` is the `this` Document object, `hist` is
`this._editor.historySize()`, `s` the manager state the nested
`addToWorkingSet(this)` call mutates).  Returns the updated dirty fields,
the updated manager state, and the dispatched events in order. -/
def updateDirty (hist : HistorySize) (self : Doc) (d : DocDirty) (s : ManagerState) :
    DocDirty × ManagerState × List Event :=
  if d.isDirty ≠ dirtyAfter hist d then
    (⟨dirtyAfter hist d, savedAfter hist d⟩,
     (if dirtyAfter hist d then addToWorkingSet self s else (s, [])).1,
     Event.dirtyFlagChange self ::
       (if dirtyAfter hist d then addToWorkingSet self s else (s, [])).2)
  else (⟨d.isDirty, savedAfter hist d⟩, s, [])

/-- `Document.prototype.markClean`: set `_savedUndoPosition` to the
editor's current undo depth, then re-run `_updateDirty` (which reads the
same, unchanged `historySize()`). -/
def markClean (hist : HistorySize) (self : Doc) (d : DocDirty) (s : ManagerState) :
    DocDirty × ManagerState × List Event :=
  updateDirty hist self ⟨d.isDirty, (hist.undo : Int)⟩ s

/-- A run of editor change callbacks: fold `_updateDirty` over the
successive `historySize()` values reported by the widget, accumulating
the dispatched events. -/
def applyChanges (self : Doc) (l : List HistorySize)
    (start : DocDirty × ManagerState × List Event) :
    DocDirty × ManagerState × List Event :=
  l.foldl (fun acc h =>
    let r := updateDirty h self acc.1 acc.2.1
    (r.1, r.2.1, acc.2.2 ++ r.2.2)) start

/-! ### The restore path (`_savePreferences` / `_init`)

`_init` reads the stored `prefs.files` list, fires one asynchronous
`projectRoot.getFile` per entry, and only after all callbacks have run
(`responseCount == fileCount`) builds the Documents.  We model the
non-determinism of completion order by an explicit `arrival` list of
indices (the order in which the per-entry callbacks run); a full restore
corresponds to `arrival` being a permutation of `List.range files.length`.
The success callback for stored index `i` receives a fresh file-entry
object, modelled as `⟨i, path⟩` so that the JS `===` comparison with
`activeFile` is equality of the structure. -/

/-- One record of the stored `prefs.files` list: `{file: path, active}`. -/
structure PrefEntry where
  file : String
  active : Bool
deriving DecidableEq, Repr

/-- A JavaScript value that may be `undefined`, `null`, or a proper value;
used where the code distinguishes the three (the `activeDoc` local of
`_init`). -/
inductive JVal (α : Type) where
  | undef
  | null
  | val (a : α)
deriving DecidableEq, Repr

/-- Outcome of the `projectRoot.getFile` check for stored index `i`:
`some` of a fresh file-entry object on success, `none` on error
(`resolves` says which paths still exist). -/
def resolveFile (files : List PrefEntry) (resolves : Nat → Bool) (i : Nat) :
    Option FileEntry :=
  if resolves i then (files[i]?).map (fun p => ⟨i, p.file⟩) else none

/-- The `filesToOpen` array being filled in callback-arrival order:
slot `i` is set to `some (res i)` when index `i`'s callback runs (inner
`some fe` for success, inner `none` for the error callback's `null`);
an outer `none` is a slot still `undefined`. -/
def fillSlots (res : Nat → Option FileEntry) (arrival : List Nat)
    (init : List (Option (Option FileEntry))) : List (Option (Option FileEntry)) :=
  arrival.foldl (fun acc i => acc.set i (some (res i))) init

/-- The final `filesToOpen` array after all callbacks: `undefined` slots
and `null` slots are both falsy in the `if (value)` test of the done
callback, so both collapse to `none`. -/
def filesToOpenOf (files : List PrefEntry) (resolves : Nat → Bool)
    (arrival : List Nat) : List (Option FileEntry) :=
  (fillSlots (resolveFile files resolves) arrival
    (List.replicate files.length none)).map (fun o => o.getD none)

/-- The evolution of the `activeFile` variable over the callbacks in
`arrival` order: each success callback whose stored entry has `active`
set overwrites it, so the last such callback wins. -/
def activeFold (files : List PrefEntry) (res : Nat → Option FileEntry)
    (arrival : List Nat) (acc : Option FileEntry) : Option FileEntry :=
  arrival.foldl (fun acc i =>
    match res i with
    | some fe => if ((files[i]?).map PrefEntry.active).getD false then some fe else acc
    | none => acc) acc

/-- Whether the callback for stored index `i` assigns `activeFile`: the
path resolves and the stored entry is flagged active. -/
def activeHit (files : List PrefEntry) (res : Nat → Option FileEntry) (i : Nat) : Prop :=
  (res i).isSome = true ∧ ((files[i]?).map PrefEntry.active).getD false = true

/-- The `activeFile` variable after all callbacks: fold from the initial
`undefined` (modelled `none`). -/
def activeFileOf (files : List PrefEntry) (resolves : Nat → Bool)
    (arrival : List Nat) : Option FileEntry :=
  activeFold files (resolveFile files resolves) arrival none

/-- The `filesToOpen.forEach` loop of the done callback: for each truthy
slot, `new Document(value)` (which can throw), `addToWorkingSet(doc)`,
and `activeDoc = doc` when `value === activeFile`.  `i` is the running
stored index, used as the fresh Document's identity. -/
def restoreLoop (af : Option FileEntry) :
    List (Option FileEntry) → Nat → ManagerState → JVal Doc → List Event →
    Except String (ManagerState × JVal Doc × List Event)
  | [], _, s, ad, evs => .ok (s, ad, evs)
  | none :: rest, i, s, ad, evs => restoreLoop af rest (i + 1) s ad evs
  | some fe :: rest, i, s, ad, evs =>
      match newDocument i fe s with
      | .error e => .error e
      | .ok doc =>
          let r := addToWorkingSet doc s
          let ad' := if some fe = af then JVal.val doc else ad
          restoreLoop af rest (i + 1) r.1 ad' (evs ++ r.2)

/-- The tail of the done callback.  `activeDoc` is `undefined` when no
surviving entry matched `activeFile`, so the `activeDoc === null` test is
false in that case and the `_workingSet[0]` fallback does not run; the
loose `activeDoc != null` test then also fails and nothing is shown.
(`_workingSet[0]` on an empty array would be `undefined`.) -/
def restoreFinish (iw : String → Bool)
    (r : ManagerState × JVal Doc × List Event) : ManagerState × List Event :=
  let ad2 :=
    if r.2.1 = JVal.null then
      match r.1.workingSet[0]? with
      | some d => JVal.val d
      | none => JVal.undef
    else r.2.1
  match ad2 with
  | JVal.val d =>
      let r2 := showInEditor iw d r.1
      (r2.1, r.2.2 ++ r2.2)
  | _ => (r.1, r.2.2)

/-- `_init`, run at startup on the empty manager state: fill
`filesToOpen` / `activeFile` in arrival order, then run the done callback
(Document construction can throw, which aborts the `forEach`). -/
def initRestore (iw : String → Bool) (files : List PrefEntry)
    (resolves : Nat → Bool) (arrival : List Nat) :
    Except String (ManagerState × List Event) :=
  match restoreLoop (activeFileOf files resolves arrival)
      (filesToOpenOf files resolves arrival) 0 ⟨[], none⟩ JVal.undef [] with
  | .error e => .error e
  | .ok r => .ok (restoreFinish iw r)

/-- The stored entries that survive restore: those whose path still
resolves, in stored order, each as the fresh file entry of its index. -/
def survivingFiles (files : List PrefEntry) (resolves : Nat → Bool) :
    List FileEntry :=
  (List.range files.length).filterMap (resolveFile files resolves)

/-- The Documents the done callback builds from a final `filesToOpen`
array, starting at stored index `i`: one per truthy slot, in slot order,
identity = slot index. -/
def builtDocs : Nat → List (Option FileEntry) → List Doc
  | _, [] => []
  | i, none :: rest => builtDocs (i + 1) rest
  | i, some fe :: rest => ⟨i, fe⟩ :: builtDocs (i + 1) rest

/-- The full paths of the truthy slots of a `filesToOpen` array. -/
def pathsOfSlots (L : List (Option FileEntry)) : List String :=
  L.filterMap (fun o => o.map FileEntry.fullPath)

/-- The manager states reachable from the initial empty state through the
module's public state-changing operations (`addToWorkingSet`,
`showInEditor`, `closeDocument`), with arbitrary arguments. -/
inductive Reachable : ManagerState → Prop where
  | init : Reachable ⟨[], none⟩
  | add (s : ManagerState) (d : Doc) : Reachable s → Reachable (addToWorkingSet d s).1
  | showDoc (s : ManagerState) (iw : String → Bool) (d : Doc) :
      Reachable s → Reachable (showInEditor iw d s).1
  | close (s : ManagerState) (iw : String → Bool) (d : Doc) :
      Reachable s → Reachable (closeDocument iw d s).1

/-! ### Basic lemmas about the working-set search -/

theorem findInWorkingSet_eq_none_iff (fe : FileEntry) (ws : List Doc) :
    findInWorkingSet fe ws = none ↔ ∀ d ∈ ws, d.file.fullPath ≠ fe.fullPath := by
  induction ws with
  | nil => simp [findInWorkingSet]
  | cons d rest ih =>
      by_cases h : d.file.fullPath = fe.fullPath <;>
        simp [findInWorkingSet, h, ih]

theorem findInWorkingSet_ne_none_of_mem {fe : FileEntry} {ws : List Doc} {d : Doc}
    (hd : d ∈ ws) (hp : d.file.fullPath = fe.fullPath) :
    findInWorkingSet fe ws ≠ none := by
  intro h
  exact (findInWorkingSet_eq_none_iff fe ws).1 h d hd hp

theorem findInWorkingSet_some {fe : FileEntry} {ws : List Doc} {i : Nat}
    (h : findInWorkingSet fe ws = some i) :
    ∃ d, ws[i]? = some d ∧ d.file.fullPath = fe.fullPath := by
  induction ws generalizing i with
  | nil => simp [findInWorkingSet] at h
  | cons d rest ih =>
      by_cases hp : d.file.fullPath = fe.fullPath
      · simp [findInWorkingSet, hp] at h
        subst h
        exact ⟨d, by simp, hp⟩
      · simp [findInWorkingSet, hp] at h
        obtain ⟨j, hj, rfl⟩ := h
        obtain ⟨d', hd', hp'⟩ := ih hj
        exact ⟨d', by simpa using hd', hp'⟩

/-! ### C10: closing an unrelated document is a no-op -/

/-- C10: for every call `closeDocument(doc)` where `doc` is neither the
current document nor a member of the working set (by path), the call is a
complete no-op: the working set and the current document are unchanged
and no notification is emitted. -/
theorem closeDocument_unrelated_noop (iw : String → Bool) (d : Doc)
    (s : ManagerState) (h1 : s.currentDocument ≠ some d)
    (h2 : findInWorkingSet d.file s.workingSet = none) :
    closeDocument iw d s = (s, []) := by
  simp [closeDocument, closeReplaceStep, removeFromWorkingSet, h1, h2]

/-- Witness for `closeDocument_unrelated_noop` at a concrete input. -/
theorem closeDocument_unrelated_noop_witness :
    closeDocument (fun _ => true) ⟨9, ⟨9, "x"⟩⟩
      ⟨[⟨0, ⟨0, "a"⟩⟩], some ⟨1, ⟨1, "b"⟩⟩⟩
    = (⟨[⟨0, ⟨0, "a"⟩⟩], some ⟨1, ⟨1, "b"⟩⟩⟩, []) :=
  closeDocument_unrelated_noop (fun _ => true) ⟨9, ⟨9, "x"⟩⟩
    ⟨[⟨0, ⟨0, "a"⟩⟩], some ⟨1, ⟨1, "b"⟩⟩⟩ (by decide) (by decide)

/-! ### C8: addToWorkingSet is idempotent by path -/

/-- C8: `addToWorkingSet` is idempotent by file path: with the path not
yet present, adding `d1` and then any `d2` of the same path appends `d1`
at the end, leaves exactly one entry of that path, emits exactly one
`workingSetAdd` notification, and neither call changes the current
document (the last conjunct states this for every call). -/
theorem addToWorkingSet_idempotent (s : ManagerState) (d1 d2 : Doc)
    (hp : d1.file.fullPath = d2.file.fullPath)
    (habs : findInWorkingSet d1.file s.workingSet = none) :
    (addToWorkingSet d2 (addToWorkingSet d1 s).1).1.workingSet = s.workingSet ++ [d1]
    ∧ ((addToWorkingSet d2 (addToWorkingSet d1 s).1).1.workingSet.countP
        (fun d => d.file.fullPath == d2.file.fullPath)) = 1
    ∧ (addToWorkingSet d1 s).2 ++ (addToWorkingSet d2 (addToWorkingSet d1 s).1).2
        = [Event.workingSetAdd d1]
    ∧ (∀ (s' : ManagerState) (d' : Doc),
        (addToWorkingSet d' s').1.currentDocument = s'.currentDocument) := by
  have h1 : addToWorkingSet d1 s
      = ({ s with workingSet := s.workingSet ++ [d1] }, [Event.workingSetAdd d1]) := by
    simp [addToWorkingSet, habs]
  have hmem : d1 ∈ s.workingSet ++ [d1] := by simp
  have hfind2 : findInWorkingSet d2.file (s.workingSet ++ [d1]) ≠ none :=
    findInWorkingSet_ne_none_of_mem hmem hp
  have h2 : addToWorkingSet d2 ({ s with workingSet := s.workingSet ++ [d1] } :
      ManagerState) = ({ s with workingSet := s.workingSet ++ [d1] }, []) := by
    unfold addToWorkingSet
    cases hc : findInWorkingSet d2.file (s.workingSet ++ [d1]) with
    | none => exact absurd hc hfind2
    | some i => rfl
  refine ⟨by rw [h1, h2], ?_, by rw [h1, h2]; rfl, ?_⟩
  · rw [h1, h2]
    have hz : s.workingSet.countP (fun d => d.file.fullPath == d2.file.fullPath) = 0 := by
      rw [List.countP_eq_zero]
      intro d hd
      have := (findInWorkingSet_eq_none_iff d1.file s.workingSet).1 habs d hd
      rw [hp] at this
      simpa using this
    simp [List.countP_append, hz, hp]
  · intro s' d'
    unfold addToWorkingSet
    cases findInWorkingSet d'.file s'.workingSet <;> rfl

/-- Witness for `addToWorkingSet_idempotent` at a concrete input. -/
theorem addToWorkingSet_idempotent_witness :
    (addToWorkingSet ⟨1, ⟨1, "a"⟩⟩ (addToWorkingSet ⟨0, ⟨0, "a"⟩⟩
        ⟨[], some ⟨7, ⟨7, "q"⟩⟩⟩).1).1.workingSet = [] ++ [⟨0, ⟨0, "a"⟩⟩]
    ∧ ((addToWorkingSet ⟨1, ⟨1, "a"⟩⟩ (addToWorkingSet ⟨0, ⟨0, "a"⟩⟩
        ⟨[], some ⟨7, ⟨7, "q"⟩⟩⟩).1).1.workingSet.countP
        (fun d => d.file.fullPath == "a")) = 1
    ∧ (addToWorkingSet ⟨0, ⟨0, "a"⟩⟩ ⟨[], some ⟨7, ⟨7, "q"⟩⟩⟩).2
        ++ (addToWorkingSet ⟨1, ⟨1, "a"⟩⟩ (addToWorkingSet ⟨0, ⟨0, "a"⟩⟩
        ⟨[], some ⟨7, ⟨7, "q"⟩⟩⟩).1).2 = [Event.workingSetAdd ⟨0, ⟨0, "a"⟩⟩]
    ∧ (∀ (s' : ManagerState) (d' : Doc),
        (addToWorkingSet d' s').1.currentDocument = s'.currentDocument) :=
  addToWorkingSet_idempotent ⟨[], some ⟨7, ⟨7, "q"⟩⟩⟩ ⟨0, ⟨0, "a"⟩⟩ ⟨1, ⟨1, "a"⟩⟩
    (by decide) (by decide)

/-! ### C9: markClean makes the document clean, idempotently -/

theorem updateDirty_eq_of_eq (hist : HistorySize) (self : Doc) (d : DocDirty)
    (s : ManagerState) (h : d.isDirty = dirtyAfter hist d) :
    updateDirty hist self d s = (⟨d.isDirty, savedAfter hist d⟩, s, []) := by
  unfold updateDirty
  rw [if_neg (not_not_intro h)]

theorem updateDirty_eq_of_ne (hist : HistorySize) (self : Doc) (d : DocDirty)
    (s : ManagerState) (h : d.isDirty ≠ dirtyAfter hist d) :
    updateDirty hist self d s
      = (⟨dirtyAfter hist d, savedAfter hist d⟩,
         (if dirtyAfter hist d then addToWorkingSet self s else (s, [])).1,
         Event.dirtyFlagChange self ::
           (if dirtyAfter hist d then addToWorkingSet self s else (s, [])).2) := by
  unfold updateDirty
  rw [if_pos h]

theorem savedAfter_watermark (hist : HistorySize) (b : Bool) :
    savedAfter hist ⟨b, (hist.undo : Int)⟩ = (hist.undo : Int) := by
  unfold savedAfter
  rw [if_neg]
  rintro ⟨h, -⟩
  rw [show (⟨b, (hist.undo : Int)⟩ : DocDirty).savedUndoPosition
    = (hist.undo : Int) from rfl] at h
  omega

theorem dirtyAfter_watermark (hist : HistorySize) (b : Bool) :
    dirtyAfter hist ⟨b, (hist.undo : Int)⟩ = false := by
  unfold dirtyAfter
  rw [savedAfter_watermark]
  simp

theorem markClean_eq (hist : HistorySize) (self : Doc) (d : DocDirty)
    (s : ManagerState) :
    markClean hist self d s
      = (⟨false, (hist.undo : Int)⟩, s,
         if d.isDirty then [Event.dirtyFlagChange self] else []) := by
  unfold markClean
  cases hd : d.isDirty
  · rw [updateDirty_eq_of_eq hist self ⟨false, (hist.undo : Int)⟩ s
      (by rw [dirtyAfter_watermark])]
    rw [savedAfter_watermark]
    rfl
  · rw [updateDirty_eq_of_ne hist self ⟨true, (hist.undo : Int)⟩ s
      (by rw [dirtyAfter_watermark]; simp)]
    rw [savedAfter_watermark, dirtyAfter_watermark]
    simp

/-- C9: `markClean()` immediately makes `isDirty` false, and a second
`markClean()` with no intervening widget changes (same `historySize()`)
returns the same dirty fields and manager state and emits no
notification at all. -/
theorem markClean_idempotent (hist : HistorySize) (self : Doc) (d : DocDirty)
    (s : ManagerState) :
    (markClean hist self d s).1.isDirty = false
    ∧ markClean hist self (markClean hist self d s).1 (markClean hist self d s).2.1
        = ((markClean hist self d s).1, (markClean hist self d s).2.1, []) := by
  rw [markClean_eq hist self d s]
  exact ⟨rfl, by rw [markClean_eq]; rfl⟩

/-! ### C2: dirty-bit derivation from a zero save watermark -/

theorem savedAfter_zero (hist : HistorySize) (b : Bool) :
    savedAfter hist ⟨b, 0⟩ = 0 := by
  unfold savedAfter
  rw [if_neg]
  rintro ⟨h, -⟩
  rw [show (⟨b, 0⟩ : DocDirty).savedUndoPosition = 0 from rfl] at h
  omega

theorem dirtyAfter_zero (hist : HistorySize) (b : Bool) :
    dirtyAfter hist ⟨b, 0⟩ = decide (hist.undo ≠ 0) := by
  unfold dirtyAfter
  rw [savedAfter_zero]
  simp

theorem updateDirty_saved_zero (hist : HistorySize) (self : Doc) (b : Bool)
    (s : ManagerState) :
    (updateDirty hist self ⟨b, 0⟩ s).1 = ⟨decide (hist.undo ≠ 0), 0⟩ := by
  by_cases hc : b = decide (hist.undo ≠ 0)
  · rw [updateDirty_eq_of_eq hist self ⟨b, 0⟩ s (by rw [dirtyAfter_zero]; exact hc)]
    rw [savedAfter_zero]
    exact congrArg (fun x => DocDirty.mk x 0) hc
  · rw [updateDirty_eq_of_ne hist self ⟨b, 0⟩ s (by rw [dirtyAfter_zero]; exact hc)]
    rw [savedAfter_zero, dirtyAfter_zero]

theorem applyChanges_saved_zero (self : Doc) (l : List HistorySize) :
    ∀ (b : Bool) (s : ManagerState) (evs : List Event),
    (applyChanges self l (⟨b, 0⟩, s, evs)).1
      = ⟨(match l.getLast? with | none => b | some h => decide (h.undo ≠ 0)), 0⟩ := by
  induction l with
  | nil => intro b s evs; rfl
  | cons h t ih =>
      intro b s evs
      have hstep : applyChanges self (h :: t) (⟨b, 0⟩, s, evs)
          = applyChanges self t
              ((updateDirty h self ⟨b, 0⟩ s).1, (updateDirty h self ⟨b, 0⟩ s).2.1,
               evs ++ (updateDirty h self ⟨b, 0⟩ s).2.2) := rfl
      rw [hstep, updateDirty_saved_zero h self b s,
        ih (decide (h.undo ≠ 0)) _ _]
      cases t with
      | nil => rfl
      | cons h2 t2 =>
          simp only [List.getLast?_cons_cons]
          have hne : (h2 :: t2) ≠ [] := by simp
          obtain ⟨x, hx⟩ := Option.isSome_iff_exists.mp (List.getLast?_isSome.mpr hne)
          rw [hx]

/-- C2 (amended): for a Document whose editor is attached at undo-depth 0
with `savedUndoPosition` 0, after any sequence of change notifications
`savedUndoPosition` is still 0 — the irrecoverable-divergence sentinel
never triggers, because the undo depth can never drop below the zero
watermark — and `isDirty` equals "the last reported undo depth is
nonzero".  Hence `isDirty` is false initially, true once notifications
raise the undo depth to any N > 0, false again when the depth returns
to 0 (redo stack nonempty or not), true after undoing to 0 and making one
new edit, and false again as soon as a later notification brings the undo
depth back to 0, with no `markClean()` needed. -/
theorem dirty_flag_zero_watermark_run (self : Doc) (s : ManagerState)
    (l : List HistorySize) :
    (applyChanges self l (initDirty ⟨0, 0⟩, s, [])).1
      = ⟨(match l.getLast? with | none => false | some h => decide (h.undo ≠ 0)), 0⟩ :=
  applyChanges_saved_zero self l false s []

/-- C2 counterexample: attach at undo-depth 0 with `savedUndoPosition` 0;
edit (undo 1, redo 0), undo it (undo 0, redo 1), make one new edit
clearing the redo stack (undo 1, redo 0) — `isDirty` is now true — then
undo once more, bringing the undo depth back to 0 (undo 0, redo 1).  The
claim says `isDirty` remains true until `markClean()`; the code makes it
false. -/
theorem dirty_divergence_returns_clean :
    (applyChanges ⟨0, ⟨0, "a"⟩⟩ [⟨1, 0⟩, ⟨0, 1⟩, ⟨1, 0⟩]
      (initDirty ⟨0, 0⟩, ⟨[], none⟩, [])).1.isDirty = true
    ∧ (applyChanges ⟨0, ⟨0, "a"⟩⟩ [⟨1, 0⟩, ⟨0, 1⟩, ⟨1, 0⟩, ⟨0, 1⟩]
      (initDirty ⟨0, 0⟩, ⟨[], none⟩, [])).1.isDirty = false := by
  exact ⟨by decide, by decide⟩

/-! ### C5: auto-add on becoming dirty; dirtyFlagChange exactly on flips -/

theorem findInWorkingSet_addToWorkingSet_self (d : Doc) (s : ManagerState) :
    findInWorkingSet d.file (addToWorkingSet d s).1.workingSet ≠ none := by
  unfold addToWorkingSet
  cases hf : findInWorkingSet d.file s.workingSet with
  | some i => simp [hf]
  | none =>
      simp only [hf]
      exact @findInWorkingSet_ne_none_of_mem d.file (s.workingSet ++ [d]) d
        (by simp) rfl

/-- C5: whenever a change notification flips `isDirty` from false to
true, the document is a member of the working set immediately afterwards
(first conjunct), and the `dirtyFlagChange` notification is dispatched
exactly when the flag changes, in either direction (second conjunct). -/
theorem updateDirty_autoadd_and_flip_event :
    (∀ (hist : HistorySize) (self : Doc) (d : DocDirty) (s : ManagerState),
        d.isDirty = false → (updateDirty hist self d s).1.isDirty = true →
        findInWorkingSet self.file (updateDirty hist self d s).2.1.workingSet ≠ none)
    ∧ (∀ (hist : HistorySize) (self : Doc) (d : DocDirty) (s : ManagerState),
        (Event.dirtyFlagChange self ∈ (updateDirty hist self d s).2.2)
          ↔ d.isDirty ≠ (updateDirty hist self d s).1.isDirty) := by
  constructor
  · intro hist self d s hfalse htrue
    simp only [updateDirty] at htrue ⊢
    by_cases hc : d.isDirty = dirtyAfter hist d
    · rw [if_neg (not_not_intro hc)] at htrue
      simp only [] at htrue
      rw [hfalse] at htrue
      exact absurd htrue (by simp)
    · rw [if_pos hc] at htrue ⊢
      have hd : dirtyAfter hist d = true := htrue
      simp only [hd, if_true]
      exact findInWorkingSet_addToWorkingSet_self self s
  · intro hist self d s
    simp only [updateDirty]
    by_cases hc : d.isDirty = dirtyAfter hist d
    · rw [if_neg (not_not_intro hc)]
      simp
    · rw [if_pos hc]
      simp [hc]

/-- Witness for `updateDirty_autoadd_and_flip_event` at a concrete input:
a clean document whose widget reports one edit becomes dirty, lands in
the working set, and a `dirtyFlagChange` for it is dispatched. -/
theorem updateDirty_autoadd_and_flip_event_witness :
    findInWorkingSet (⟨0, "a"⟩ : FileEntry)
        (updateDirty ⟨1, 0⟩ ⟨0, ⟨0, "a"⟩⟩ ⟨false, 0⟩ ⟨[], none⟩).2.1.workingSet ≠ none
    ∧ Event.dirtyFlagChange ⟨0, ⟨0, "a"⟩⟩
        ∈ (updateDirty ⟨1, 0⟩ ⟨0, ⟨0, "a"⟩⟩ ⟨false, 0⟩ ⟨[], none⟩).2.2 :=
  ⟨updateDirty_autoadd_and_flip_event.1 ⟨1, 0⟩ ⟨0, ⟨0, "a"⟩⟩ ⟨false, 0⟩ ⟨[], none⟩
      rfl (by decide),
   (updateDirty_autoadd_and_flip_event.2 ⟨1, 0⟩ ⟨0, ⟨0, "a"⟩⟩ ⟨false, 0⟩
      ⟨[], none⟩).mpr (by decide)⟩

/-! ### Characterizations of the manager operations -/

theorem addToWorkingSet_found (d : Doc) (s : ManagerState)
    (h : findInWorkingSet d.file s.workingSet ≠ none) :
    addToWorkingSet d s = (s, []) := by
  unfold addToWorkingSet
  cases hf : findInWorkingSet d.file s.workingSet with
  | none => exact absurd hf h
  | some i => rfl

theorem removeFromWorkingSet_absent (d : Doc) (s : ManagerState)
    (h : findInWorkingSet d.file s.workingSet = none) :
    removeFromWorkingSet d s = (s, []) := by
  unfold removeFromWorkingSet
  rw [h]

theorem removeFromWorkingSet_found (d : Doc) (s : ManagerState) (i : Nat)
    (h : findInWorkingSet d.file s.workingSet = some i) :
    removeFromWorkingSet d s
      = ({ s with workingSet := s.workingSet.eraseIdx i },
         [Event.workingSetRemove d]) := by
  unfold removeFromWorkingSet
  rw [h]

theorem showInEditor_current (iw : String → Bool) (d : Doc) (s : ManagerState) :
    (showInEditor iw d s).1.currentDocument = some d := by
  unfold showInEditor
  by_cases hc : s.currentDocument = some d
  · rw [if_pos hc]
    exact hc
  · rw [if_neg hc]

theorem showInEditor_workingSet_of_found (iw : String → Bool) (d : Doc)
    (s : ManagerState) (h : findInWorkingSet d.file s.workingSet ≠ none) :
    (showInEditor iw d s).1.workingSet = s.workingSet := by
  unfold showInEditor
  by_cases hc : s.currentDocument = some d
  · rw [if_pos hc]
  · rw [if_neg hc]
    cases hw : iw d.file.fullPath <;> simp [hw, addToWorkingSet_found d s h]

theorem showInEditor_eq_of_found (iw : String → Bool) (d : Doc) (s : ManagerState)
    (hc : s.currentDocument ≠ some d)
    (h : findInWorkingSet d.file s.workingSet ≠ none) :
    showInEditor iw d s
      = ({ s with currentDocument := some d }, [Event.currentDocumentChange]) := by
  unfold showInEditor
  rw [if_neg hc]
  cases hw : iw d.file.fullPath <;> simp [hw, addToWorkingSet_found d s h]

theorem clearEditor_of_current (s : ManagerState) (h : s.currentDocument ≠ none) :
    clearEditor s = ({ s with currentDocument := none },
      [Event.currentDocumentChange]) := by
  unfold clearEditor
  rw [if_neg h]

/-! ### C6: the constructor guard for already-open paths -/

/-- C6 counterexample: the uniqueness half of the claim fails — when a
path is not open (neither current nor in the working set),
`getDocumentForFile` is null for it, so two consecutive constructions
for the same file both succeed and two distinct Document instances for
the same full path exist at the same time. -/
theorem newDocument_untracked_duplicate :
    newDocument 0 ⟨0, "x"⟩ ⟨[], none⟩ = .ok ⟨0, ⟨0, "x"⟩⟩
    ∧ newDocument 1 ⟨0, "x"⟩ ⟨[], none⟩ = .ok ⟨1, ⟨0, "x"⟩⟩
    ∧ (⟨0, ⟨0, "x"⟩⟩ : Doc) ≠ ⟨1, ⟨0, "x"⟩⟩
    ∧ (⟨0, ⟨0, "x"⟩⟩ : Doc).file.fullPath = (⟨1, ⟨0, "x"⟩⟩ : Doc).file.fullPath :=
  ⟨rfl, rfl, by decide, rfl⟩

/-- C6 (amended): constructing a Document for a file whose path is
already open — `getDocumentForFile` non-null, i.e. the path of the
current document or of a working-set member — fails with the
"document already exists" error; for a path that is not open the
construction succeeds, so the guard keeps at most one Document per
distinct *open* file path but does not protect untracked instances. -/
theorem newDocument_guard (id : Nat) (fe : FileEntry) (s : ManagerState) :
    (getDocumentForFile fe s ≠ none → newDocument id fe s = .error (docExistsMsg fe))
    ∧ (getDocumentForFile fe s = none → newDocument id fe s = .ok ⟨id, fe⟩) := by
  constructor
  · intro h
    unfold newDocument
    rw [if_pos h]
  · intro h
    unfold newDocument
    rw [if_neg (by simp [h])]

/-- Witness for `newDocument_guard` at a concrete input: the file of the
current document is open, so constructing a second Document for it
throws. -/
theorem newDocument_guard_witness :
    newDocument 1 ⟨5, "x"⟩ ⟨[], some ⟨0, ⟨0, "x"⟩⟩⟩
      = .error (docExistsMsg ⟨5, "x"⟩) :=
  (newDocument_guard 1 ⟨5, "x"⟩ ⟨[], some ⟨0, ⟨0, "x"⟩⟩⟩).1 (by decide)

/-! ### C1: replacement selection when closing the current document -/

theorem findInWorkingSet_getElem {fe : FileEntry} {ws : List Doc} {i : Nat}
    (h : findInWorkingSet fe ws = some i) :
    ∃ hlt : i < ws.length, ws[i].file.fullPath = fe.fullPath := by
  obtain ⟨d, hd, hp⟩ := findInWorkingSet_some h
  obtain ⟨hlt, he⟩ := List.getElem?_eq_some.mp hd
  exact ⟨hlt, by rw [he]; exact hp⟩

/-- C1: for `closeDocument(doc)` with `doc` the current document: when
`doc` is not in the working set, the last working-set element (`none` on
an empty set) becomes current and the working set is unchanged; when
`doc` sits at index `i`, the element at `i + 1` if it exists, else at
`i - 1` if it exists, else none becomes current, and the entry at `i` is
removed (`eraseIdx`, which keeps the remaining elements in order). -/
theorem closeDocument_current_replacement (iw : String → Bool) (d : Doc)
    (s : ManagerState) (hcur : s.currentDocument = some d) :
    (findInWorkingSet d.file s.workingSet = none →
      (closeDocument iw d s).1.currentDocument = s.workingSet.getLast?
      ∧ (closeDocument iw d s).1.workingSet = s.workingSet)
    ∧ (∀ i, findInWorkingSet d.file s.workingSet = some i →
      (closeDocument iw d s).1.currentDocument
        = (if i + 1 < s.workingSet.length then s.workingSet[i + 1]?
           else if 0 < i then s.workingSet[i - 1]? else none)
      ∧ (closeDocument iw d s).1.workingSet = s.workingSet.eraseIdx i) := by
  have hclosed : (closeDocument iw d s).1
      = (removeFromWorkingSet d (closeReplaceStep iw d s).1).1 := rfl
  constructor
  · intro hf
    have hnext : closeNextDocument d s = s.workingSet.getLast? := by
      unfold closeNextDocument
      rw [hf]
    cases hl : s.workingSet.getLast? with
    | none =>
        have hrep : closeReplaceStep iw d s
            = ({ s with currentDocument := none }, [Event.currentDocumentChange]) := by
          unfold closeReplaceStep
          rw [if_pos hcur, hnext, hl]
          exact clearEditor_of_current s (by rw [hcur]; simp)
        have hrep1 : (closeReplaceStep iw d s).1
            = ({ s with currentDocument := none } : ManagerState) := by rw [hrep]
        rw [hclosed, hrep1,
          removeFromWorkingSet_absent d ({ s with currentDocument := none }) hf]
        exact ⟨rfl, rfl⟩
    | some last =>
        have hmem := List.mem_of_getLast?_eq_some hl
        have hpath : last.file.fullPath ≠ d.file.fullPath :=
          (findInWorkingSet_eq_none_iff d.file s.workingSet).1 hf last hmem
        have hne : s.currentDocument ≠ some last := by
          rw [hcur]
          intro hcon
          have hdl : d = last := Option.some_inj.mp hcon
          exact hpath (by rw [hdl])
        have hfound : findInWorkingSet last.file s.workingSet ≠ none :=
          @findInWorkingSet_ne_none_of_mem last.file s.workingSet last hmem rfl
        have hrep : closeReplaceStep iw d s
            = ({ s with currentDocument := some last },
               [Event.currentDocumentChange]) := by
          unfold closeReplaceStep
          rw [if_pos hcur, hnext, hl]
          exact showInEditor_eq_of_found iw last s hne hfound
        have hrep1 : (closeReplaceStep iw d s).1
            = ({ s with currentDocument := some last } : ManagerState) := by rw [hrep]
        rw [hclosed, hrep1,
          removeFromWorkingSet_absent d ({ s with currentDocument := some last }) hf]
        exact ⟨rfl, rfl⟩
  · intro i hf
    obtain ⟨hlt, hpi⟩ := findInWorkingSet_getElem hf
    have hnext : closeNextDocument d s
        = (if i < s.workingSet.length - 1 then s.workingSet[i + 1]?
           else if 0 < i then s.workingSet[i - 1]? else none) := by
      unfold closeNextDocument
      rw [hf]
    by_cases h1 : i < s.workingSet.length - 1
    · have hi1 : i + 1 < s.workingSet.length := by omega
      have hrep : closeReplaceStep iw d s
          = showInEditor iw (s.workingSet[i + 1]) s := by
        unfold closeReplaceStep
        rw [if_pos hcur, hnext, if_pos h1, List.getElem?_eq_getElem hi1]
      have hmem : s.workingSet[i + 1] ∈ s.workingSet := List.getElem_mem hi1
      have hfound : findInWorkingSet (s.workingSet[i + 1]).file s.workingSet ≠ none :=
        @findInWorkingSet_ne_none_of_mem _ s.workingSet _ hmem rfl
      have hws1 : (closeReplaceStep iw d s).1.workingSet = s.workingSet := by
        rw [hrep]
        exact showInEditor_workingSet_of_found iw _ s hfound
      have hrm : removeFromWorkingSet d (closeReplaceStep iw d s).1
          = ({ (closeReplaceStep iw d s).1 with
                workingSet := (closeReplaceStep iw d s).1.workingSet.eraseIdx i },
             [Event.workingSetRemove d]) :=
        removeFromWorkingSet_found d _ i (by rw [hws1]; exact hf)
      constructor
      · rw [hclosed, hrm]
        show (closeReplaceStep iw d s).1.currentDocument = _
        rw [hrep, showInEditor_current, if_pos hi1, List.getElem?_eq_getElem hi1]
      · rw [hclosed, hrm]
        show (closeReplaceStep iw d s).1.workingSet.eraseIdx i = _
        rw [hws1]
    · by_cases h2 : 0 < i
      · have him1 : i - 1 < s.workingSet.length := by omega
        have hni1 : ¬(i + 1 < s.workingSet.length) := by omega
        have hrep : closeReplaceStep iw d s
            = showInEditor iw (s.workingSet[i - 1]) s := by
          unfold closeReplaceStep
          rw [if_pos hcur, hnext, if_neg h1, if_pos h2,
            List.getElem?_eq_getElem him1]
        have hmem : s.workingSet[i - 1] ∈ s.workingSet := List.getElem_mem him1
        have hfound : findInWorkingSet (s.workingSet[i - 1]).file s.workingSet
            ≠ none :=
          @findInWorkingSet_ne_none_of_mem _ s.workingSet _ hmem rfl
        have hws1 : (closeReplaceStep iw d s).1.workingSet = s.workingSet := by
          rw [hrep]
          exact showInEditor_workingSet_of_found iw _ s hfound
        have hrm : removeFromWorkingSet d (closeReplaceStep iw d s).1
            = ({ (closeReplaceStep iw d s).1 with
                  workingSet := (closeReplaceStep iw d s).1.workingSet.eraseIdx i },
               [Event.workingSetRemove d]) :=
          removeFromWorkingSet_found d _ i (by rw [hws1]; exact hf)
        constructor
        · rw [hclosed, hrm]
          show (closeReplaceStep iw d s).1.currentDocument = _
          rw [hrep, showInEditor_current, if_neg hni1, if_pos h2,
            List.getElem?_eq_getElem him1]
        · rw [hclosed, hrm]
          show (closeReplaceStep iw d s).1.workingSet.eraseIdx i = _
          rw [hws1]
      · have hni1 : ¬(i + 1 < s.workingSet.length) := by omega
        have hrep : closeReplaceStep iw d s
            = ({ s with currentDocument := none }, [Event.currentDocumentChange]) := by
          unfold closeReplaceStep
          rw [if_pos hcur, hnext, if_neg h1, if_neg h2]
          exact clearEditor_of_current s (by rw [hcur]; simp)
        have hrep1 : (closeReplaceStep iw d s).1
            = ({ s with currentDocument := none } : ManagerState) := by rw [hrep]
        constructor
        · rw [hclosed, hrep1,
            removeFromWorkingSet_found d ({ s with currentDocument := none }) i hf]
          show (none : Option Doc) = _
          rw [if_neg hni1, if_neg h2]
        · rw [hclosed, hrep1,
            removeFromWorkingSet_found d ({ s with currentDocument := none }) i hf]

/-- Witness for `closeDocument_current_replacement`: working set
[A, B, C] with current B; closing B makes C current and leaves [A, C]. -/
theorem closeDocument_current_replacement_witness :
    (closeDocument (fun _ => true) ⟨1, ⟨1, "b"⟩⟩
        ⟨[⟨0, ⟨0, "a"⟩⟩, ⟨1, ⟨1, "b"⟩⟩, ⟨2, ⟨2, "c"⟩⟩],
         some ⟨1, ⟨1, "b"⟩⟩⟩).1.currentDocument
      = (if 1 + 1 < ([⟨0, ⟨0, "a"⟩⟩, ⟨1, ⟨1, "b"⟩⟩, ⟨2, ⟨2, "c"⟩⟩] : List Doc).length
         then ([⟨0, ⟨0, "a"⟩⟩, ⟨1, ⟨1, "b"⟩⟩, ⟨2, ⟨2, "c"⟩⟩] : List Doc)[1 + 1]?
         else if 0 < 1
         then ([⟨0, ⟨0, "a"⟩⟩, ⟨1, ⟨1, "b"⟩⟩, ⟨2, ⟨2, "c"⟩⟩] : List Doc)[1 - 1]?
         else none)
    ∧ (closeDocument (fun _ => true) ⟨1, ⟨1, "b"⟩⟩
        ⟨[⟨0, ⟨0, "a"⟩⟩, ⟨1, ⟨1, "b"⟩⟩, ⟨2, ⟨2, "c"⟩⟩],
         some ⟨1, ⟨1, "b"⟩⟩⟩).1.workingSet
      = ([⟨0, ⟨0, "a"⟩⟩, ⟨1, ⟨1, "b"⟩⟩, ⟨2, ⟨2, "c"⟩⟩] : List Doc).eraseIdx 1 :=
  (closeDocument_current_replacement (fun _ => true) ⟨1, ⟨1, "b"⟩⟩
    ⟨[⟨0, ⟨0, "a"⟩⟩, ⟨1, ⟨1, "b"⟩⟩, ⟨2, ⟨2, "c"⟩⟩], some ⟨1, ⟨1, "b"⟩⟩⟩ rfl).2 1 rfl

/-! ### C7: the close-time assertion on reachable states -/

theorem pathsNodup_addToWorkingSet (d : Doc) (s : ManagerState)
    (h : (s.workingSet.map (fun x => x.file.fullPath)).Nodup) :
    ((addToWorkingSet d s).1.workingSet.map (fun x => x.file.fullPath)).Nodup := by
  unfold addToWorkingSet
  cases hf : findInWorkingSet d.file s.workingSet with
  | some i => exact h
  | none =>
      show ((s.workingSet ++ [d]).map (fun x => x.file.fullPath)).Nodup
      rw [List.map_append]
      refine List.Nodup.append h (List.nodup_singleton _) ?_
      intro p hp hpd
      simp only [List.map_cons, List.map_nil, List.mem_singleton] at hpd
      obtain ⟨x, hx, hxp⟩ := List.mem_map.mp hp
      exact (findInWorkingSet_eq_none_iff d.file s.workingSet).1 hf x hx
        (by rw [hxp, hpd])

theorem pathsNodup_showInEditor (iw : String → Bool) (d : Doc) (s : ManagerState)
    (h : (s.workingSet.map (fun x => x.file.fullPath)).Nodup) :
    ((showInEditor iw d s).1.workingSet.map (fun x => x.file.fullPath)).Nodup := by
  unfold showInEditor
  by_cases hc : s.currentDocument = some d
  · rw [if_pos hc]
    exact h
  · rw [if_neg hc]
    cases hw : iw d.file.fullPath
    · show (((addToWorkingSet d s).1.workingSet).map (fun x => x.file.fullPath)).Nodup
      exact pathsNodup_addToWorkingSet d s h
    · exact h

theorem pathsNodup_removeFromWorkingSet (d : Doc) (s : ManagerState)
    (h : (s.workingSet.map (fun x => x.file.fullPath)).Nodup) :
    ((removeFromWorkingSet d s).1.workingSet.map (fun x => x.file.fullPath)).Nodup := by
  unfold removeFromWorkingSet
  cases hf : findInWorkingSet d.file s.workingSet with
  | none => exact h
  | some i =>
      show ((s.workingSet.eraseIdx i).map (fun x => x.file.fullPath)).Nodup
      exact h.sublist ((s.workingSet.eraseIdx_sublist i).map _)

theorem pathsNodup_closeDocument (iw : String → Bool) (d : Doc) (s : ManagerState)
    (h : (s.workingSet.map (fun x => x.file.fullPath)).Nodup) :
    ((closeDocument iw d s).1.workingSet.map (fun x => x.file.fullPath)).Nodup := by
  have hstep : (closeDocument iw d s).1
      = (removeFromWorkingSet d (closeReplaceStep iw d s).1).1 := rfl
  rw [hstep]
  apply pathsNodup_removeFromWorkingSet
  unfold closeReplaceStep
  by_cases hc : s.currentDocument = some d
  · rw [if_pos hc]
    cases closeNextDocument d s with
    | some nd =>
        show (((showInEditor iw nd s).1.workingSet).map (fun x => x.file.fullPath)).Nodup
        exact pathsNodup_showInEditor iw nd s h
    | none =>
        unfold clearEditor
        by_cases hb : s.currentDocument = none
        · rw [if_pos hb]
          exact h
        · rw [if_neg hb]
          exact h
  · rw [if_neg hc]
    exact h

theorem reachable_paths_nodup (s : ManagerState) (h : Reachable s) :
    (s.workingSet.map (fun x => x.file.fullPath)).Nodup := by
  induction h with
  | init => simp
  | add s d hs ih => exact pathsNodup_addToWorkingSet d s ih
  | showDoc s iw d hs ih => exact pathsNodup_showInEditor iw d s ih
  | close s iw d hs ih => exact pathsNodup_closeDocument iw d s ih

theorem closeNextDocument_ne (d : Doc) (s : ManagerState)
    (hnd : (s.workingSet.map (fun x => x.file.fullPath)).Nodup)
    {nd : Doc} (h : closeNextDocument d s = some nd) : nd ≠ d := by
  unfold closeNextDocument at h
  cases hf : findInWorkingSet d.file s.workingSet with
  | none =>
      rw [hf] at h
      have hmem := List.mem_of_getLast?_eq_some h
      intro hcon
      exact (findInWorkingSet_eq_none_iff d.file s.workingSet).1 hf nd hmem
        (by rw [hcon])
  | some i =>
      rw [hf] at h
      have h2 : (if i < s.workingSet.length - 1 then s.workingSet[i + 1]?
          else if 0 < i then s.workingSet[i - 1]? else none) = some nd := h
      obtain ⟨hlt, hpi⟩ := findInWorkingSet_getElem hf
      have hgen : ∀ j, j < s.workingSet.length → j ≠ i →
          s.workingSet[j]? = some nd → nd ≠ d := by
        intro j hj hji hsome
        obtain ⟨hj', he⟩ := List.getElem?_eq_some.mp hsome
        intro hcon
        apply hji
        have hmj : j < (s.workingSet.map (fun x => x.file.fullPath)).length := by
          rw [List.length_map]
          exact hj
        have hmi : i < (s.workingSet.map (fun x => x.file.fullPath)).length := by
          rw [List.length_map]
          exact hlt
        have hpij : (s.workingSet.map (fun x => x.file.fullPath))[j]
            = (s.workingSet.map (fun x => x.file.fullPath))[i] := by
          rw [List.getElem_map, List.getElem_map, he, hcon, hpi]
        exact (hnd.getElem_inj_iff).mp hpij
      by_cases h1 : i < s.workingSet.length - 1
      · rw [if_pos h1] at h2
        exact hgen (i + 1) (by omega) (by omega) h2
      · rw [if_neg h1] at h2
        by_cases h3 : 0 < i
        · rw [if_pos h3] at h2
          exact hgen (i - 1) (by omega) (by omega) h2
        · rw [if_neg h3] at h2
          cases h2

/-- C7: on every reachable manager state, after the replacement-selection
half of `closeDocument(doc)` — the program point of the
`console.assert(_currentDocument != document)` line — the current
document is not the document being closed; the assertion never fails. -/
theorem closeReplaceStep_assertion (s : ManagerState) (hr : Reachable s)
    (iw : String → Bool) (d : Doc) :
    (closeReplaceStep iw d s).1.currentDocument ≠ some d := by
  by_cases hcur : s.currentDocument = some d
  · unfold closeReplaceStep
    rw [if_pos hcur]
    cases hn : closeNextDocument d s with
    | none =>
        show (clearEditor s).1.currentDocument ≠ some d
        rw [clearEditor_of_current s (by rw [hcur]; simp)]
        simp
    | some nd =>
        have hne : nd ≠ d :=
          closeNextDocument_ne d s (reachable_paths_nodup s hr) hn
        show (showInEditor iw nd s).1.currentDocument ≠ some d
        rw [showInEditor_current]
        intro hcon
        exact hne (Option.some_inj.mp hcon)
  · unfold closeReplaceStep
    rw [if_neg hcur]
    exact hcur

/-- Witness for `closeReplaceStep_assertion` at a concrete reachable
state: [A] in the working set and current, closing A. -/
theorem closeReplaceStep_assertion_witness :
    (closeReplaceStep (fun _ => true) ⟨0, ⟨0, "a"⟩⟩
      (showInEditor (fun _ => true) ⟨0, ⟨0, "a"⟩⟩
        (addToWorkingSet ⟨0, ⟨0, "a"⟩⟩ ⟨[], none⟩).1).1).1.currentDocument
      ≠ some ⟨0, ⟨0, "a"⟩⟩ :=
  closeReplaceStep_assertion _
    (Reachable.showDoc _ _ _ (Reachable.add _ _ Reachable.init))
    (fun _ => true) ⟨0, ⟨0, "a"⟩⟩

/-! ### C3: the restore-time active-document selection -/

/-- C3 (evaluation at the failing input): restoring the stored list
[("A", active=false)] with the path resolving leaves `currentDocument`
empty, although the claim (and spec §4.3) says the first working-set
entry, the Document for "A", should become current.  The `activeDoc`
local is `undefined` when no entry was flagged active, so the JS test
`activeDoc === null` is false and the `_workingSet[0]` fallback never
runs; the loose `activeDoc != null` test then also fails and no document
is shown. -/
theorem initRestore_no_active_leaves_no_current :
    initRestore (fun _ => true) [⟨"A", false⟩] (fun _ => true) [0]
      = .ok (⟨[⟨0, ⟨0, "A"⟩⟩], none⟩, [Event.workingSetAdd ⟨0, ⟨0, "A"⟩⟩]) := rfl

/-! ### C4: restore drops unresolved entries and keeps stored order -/

theorem fillSlots_cons (res : Nat → Option FileEntry) (a : Nat) (t : List Nat)
    (init : List (Option (Option FileEntry))) :
    fillSlots res (a :: t) init = fillSlots res t (init.set a (some (res a))) := rfl

theorem fillSlots_getElem? (res : Nat → Option FileEntry) (arrival : List Nat) :
    ∀ (init : List (Option (Option FileEntry))) (j : Nat),
    (fillSlots res arrival init)[j]?
      = if j ∈ arrival ∧ j < init.length then some (some (res j)) else init[j]? := by
  induction arrival with
  | nil =>
      intro init j
      simp [fillSlots]
  | cons a t ih =>
      intro init j
      rw [fillSlots_cons, ih, List.length_set, List.getElem?_set]
      by_cases hjl : j < init.length
      · by_cases hjt : j ∈ t
        · rw [if_pos ⟨hjt, hjl⟩, if_pos ⟨List.mem_cons_of_mem a hjt, hjl⟩]
        · have hc1 : ¬(j ∈ t ∧ j < init.length) := by tauto
          rw [if_neg hc1]
          by_cases haj : a = j
          · subst haj
            rw [if_pos rfl, if_pos hjl, if_pos ⟨List.mem_cons_self a t, hjl⟩]
          · have hc2 : ¬(j ∈ a :: t ∧ j < init.length) := by
              rintro ⟨hmem, -⟩
              cases List.mem_cons.mp hmem with
              | inl h => exact haj h.symm
              | inr h => exact hjt h
            rw [if_neg haj, if_neg hc2]
      · have hnone : init[j]? = none := List.getElem?_eq_none (by omega)
        have hc1 : ¬(j ∈ t ∧ j < init.length) := by tauto
        have hc2 : ¬(j ∈ a :: t ∧ j < init.length) := by tauto
        rw [if_neg hc1, if_neg hc2, hnone]
        by_cases haj : a = j
        · rw [if_pos haj, if_neg (by omega)]
        · rw [if_neg haj]

theorem filesToOpenOf_perm (files : List PrefEntry) (resolves : Nat → Bool)
    (arrival : List Nat) (hperm : arrival.Perm (List.range files.length)) :
    filesToOpenOf files resolves arrival
      = (List.range files.length).map (resolveFile files resolves) := by
  apply List.ext_getElem?
  intro j
  unfold filesToOpenOf
  rw [List.getElem?_map, fillSlots_getElem?, List.getElem?_map,
    List.length_replicate]
  have hmemiff : j ∈ arrival ↔ j < files.length := by
    rw [hperm.mem_iff, List.mem_range]
  by_cases hj : j < files.length
  · rw [if_pos ⟨hmemiff.mpr hj, hj⟩, List.getElem?_range hj]
    rfl
  · rw [if_neg (by simp [hmemiff, hj]), List.getElem?_replicate, if_neg hj,
      List.getElem?_eq_none (by simpa using hj)]
    rfl

theorem activeFold_cons (files : List PrefEntry) (res : Nat → Option FileEntry)
    (a : Nat) (t : List Nat) (acc : Option FileEntry) :
    activeFold files res (a :: t) acc
      = activeFold files res t
          (match res a with
           | some fe =>
               if ((files[a]?).map PrefEntry.active).getD false then some fe else acc
           | none => acc) := rfl

theorem activeFold_step_no_hit (files : List PrefEntry) (res : Nat → Option FileEntry)
    (a : Nat) (acc : Option FileEntry) (h : ¬activeHit files res a) :
    (match res a with
     | some fe =>
         if ((files[a]?).map PrefEntry.active).getD false then some fe else acc
     | none => acc) = acc := by
  unfold activeHit at h
  cases hr : res a with
  | none => rfl
  | some fe =>
      show (if ((files[a]?).map PrefEntry.active).getD false then some fe else acc) = acc
      rw [if_neg]
      intro hact
      exact h ⟨by rw [hr]; rfl, hact⟩

theorem activeFold_no_hit (files : List PrefEntry) (res : Nat → Option FileEntry) :
    ∀ (l : List Nat) (acc : Option FileEntry),
    (∀ i ∈ l, ¬activeHit files res i) → activeFold files res l acc = acc := by
  intro l
  induction l with
  | nil => intro acc h; rfl
  | cons a t ih =>
      intro acc h
      rw [activeFold_cons,
        activeFold_step_no_hit files res a acc (h a (by simp))]
      exact ih acc (fun i hi => h i (List.mem_cons_of_mem a hi))

theorem activeFold_unique (files : List PrefEntry) (res : Nat → Option FileEntry)
    (k : Nat) :
    ∀ (l : List Nat) (acc : Option FileEntry), k ∈ l → activeHit files res k →
    (∀ i ∈ l, activeHit files res i → i = k) →
    activeFold files res l acc = res k := by
  intro l
  induction l with
  | nil => intro acc hk; simp at hk
  | cons a t ih =>
      intro acc hk hhit huniq
      by_cases hkt : k ∈ t
      · rw [activeFold_cons]
        exact ih _ hkt hhit (fun i hi => huniq i (List.mem_cons_of_mem a hi))
      · have hak : a = k := by
          cases List.mem_cons.mp hk with
          | inl h => exact h.symm
          | inr h => exact absurd h hkt
        subst hak
        rw [activeFold_cons]
        obtain ⟨hsome, hact⟩ := hhit
        cases hr : res a with
        | none =>
            rw [hr] at hsome
            cases hsome
        | some fe =>
            show activeFold files res t
                (if ((files[a]?).map PrefEntry.active).getD false then some fe
                 else acc) = some fe
            rw [if_pos hact, activeFold_no_hit files res t (some fe)
              (fun i hi hh => hkt ((huniq i (List.mem_cons_of_mem a hi) hh) ▸ hi))]

theorem getDocumentForFile_none (fe : FileEntry) (s : ManagerState)
    (hcur : s.currentDocument = none)
    (hf : findInWorkingSet fe s.workingSet = none) :
    getDocumentForFile fe s = none := by
  unfold getDocumentForFile
  rw [hcur, hf]
  rfl

theorem addToWorkingSet_absent (d : Doc) (s : ManagerState)
    (h : findInWorkingSet d.file s.workingSet = none) :
    addToWorkingSet d s
      = ({ s with workingSet := s.workingSet ++ [d] }, [Event.workingSetAdd d]) := by
  unfold addToWorkingSet
  rw [h]

theorem newDocument_ok (id : Nat) (fe : FileEntry) (s : ManagerState)
    (h : getDocumentForFile fe s = none) :
    newDocument id fe s = .ok ⟨id, fe⟩ := by
  unfold newDocument
  rw [if_neg (by simp [h])]

theorem pathsOfSlots_cons_none (L : List (Option FileEntry)) :
    pathsOfSlots (none :: L) = pathsOfSlots L := by
  simp [pathsOfSlots]

theorem pathsOfSlots_cons_some (fe : FileEntry) (L : List (Option FileEntry)) :
    pathsOfSlots (some fe :: L) = fe.fullPath :: pathsOfSlots L := by
  simp [pathsOfSlots]

theorem mem_pathsOfSlots {fe : FileEntry} {L : List (Option FileEntry)}
    (h : some fe ∈ L) : fe.fullPath ∈ pathsOfSlots L :=
  List.mem_filterMap.mpr ⟨some fe, h, rfl⟩

theorem restoreLoop_ok (af : Option FileEntry) :
    ∀ (L : List (Option FileEntry)) (i0 : Nat) (s : ManagerState) (ad : JVal Doc)
      (evs : List Event),
    s.currentDocument = none →
    (∀ fe, some fe ∈ L → findInWorkingSet fe s.workingSet = none) →
    (pathsOfSlots L).Nodup →
    ∃ ad' evs', restoreLoop af L i0 s ad evs
        = .ok (⟨s.workingSet ++ builtDocs i0 L, none⟩, ad', evs')
      ∧ (ad' = ad ∨ ∃ d ∈ builtDocs i0 L, ad' = JVal.val d) := by
  intro L
  induction L with
  | nil =>
      intro i0 s ad evs hcur hdisj hnd
      obtain ⟨ws, cur⟩ := s
      have hcur2 : cur = none := hcur
      subst hcur2
      refine ⟨ad, evs, ?_, Or.inl rfl⟩
      show Except.ok ((⟨ws, none⟩ : ManagerState), ad, evs) = _
      rw [show builtDocs i0 [] = [] from rfl, List.append_nil]
  | cons o rest ih =>
      intro i0 s ad evs hcur hdisj hnd
      cases o with
      | none =>
          obtain ⟨ad', evs', hloop, hinv⟩ := ih (i0 + 1) s ad evs hcur
            (fun fe hfe => hdisj fe (List.mem_cons_of_mem none hfe))
            (by rwa [pathsOfSlots_cons_none] at hnd)
          refine ⟨ad', evs', ?_, ?_⟩
          · show restoreLoop af rest (i0 + 1) s ad evs = _
            rw [hloop]
            rfl
          · exact hinv
      | some fe =>
          have hfind : findInWorkingSet fe s.workingSet = none :=
            hdisj fe (List.mem_cons_self _ _)
          have hdoc : newDocument i0 fe s = .ok ⟨i0, fe⟩ :=
            newDocument_ok i0 fe s (getDocumentForFile_none fe s hcur hfind)
          have hadd : addToWorkingSet (⟨i0, fe⟩ : Doc) s
              = ({ s with workingSet := s.workingSet ++ [⟨i0, fe⟩] },
                 [Event.workingSetAdd ⟨i0, fe⟩]) :=
            addToWorkingSet_absent ⟨i0, fe⟩ s hfind
          have hnd2 := hnd
          rw [pathsOfSlots_cons_some] at hnd2
          have hnotin : fe.fullPath ∉ pathsOfSlots rest := (List.nodup_cons.mp hnd2).1
          have hndrest : (pathsOfSlots rest).Nodup := (List.nodup_cons.mp hnd2).2
          have hdisj2 : ∀ fe2, some fe2 ∈ rest →
              findInWorkingSet fe2 (s.workingSet ++ [(⟨i0, fe⟩ : Doc)]) = none := by
            intro fe2 hfe2
            rw [findInWorkingSet_eq_none_iff]
            intro d hd
            cases List.mem_append.mp hd with
            | inl hmem =>
                exact (findInWorkingSet_eq_none_iff fe2 s.workingSet).1
                  (hdisj fe2 (List.mem_cons_of_mem _ hfe2)) d hmem
            | inr hmem =>
                have hde : d = ⟨i0, fe⟩ := by simpa using hmem
                subst hde
                intro hpe
                exact hnotin (by rw [hpe]; exact mem_pathsOfSlots hfe2)
          obtain ⟨ad', evs', hloop, hinv⟩ := ih (i0 + 1)
            ({ s with workingSet := s.workingSet ++ [⟨i0, fe⟩] })
            (if some fe = af then JVal.val ⟨i0, fe⟩ else ad)
            (evs ++ [Event.workingSetAdd ⟨i0, fe⟩])
            hcur hdisj2 hndrest
          have hstep : restoreLoop af (some fe :: rest) i0 s ad evs
              = restoreLoop af rest (i0 + 1)
                  ({ s with workingSet := s.workingSet ++ [⟨i0, fe⟩] })
                  (if some fe = af then JVal.val ⟨i0, fe⟩ else ad)
                  (evs ++ [Event.workingSetAdd ⟨i0, fe⟩]) := by
            show (match newDocument i0 fe s with
                  | .error e => Except.error e
                  | .ok doc =>
                      restoreLoop af rest (i0 + 1) (addToWorkingSet doc s).1
                        (if some fe = af then JVal.val doc else ad)
                        (evs ++ (addToWorkingSet doc s).2)) = _
            rw [hdoc]
            show restoreLoop af rest (i0 + 1) (addToWorkingSet ⟨i0, fe⟩ s).1
                (if some fe = af then JVal.val ⟨i0, fe⟩ else ad)
                (evs ++ (addToWorkingSet ⟨i0, fe⟩ s).2) = _
            rw [hadd]
          refine ⟨ad', evs', ?_, ?_⟩
          · rw [hstep, hloop]
            show Except.ok
                ((⟨(s.workingSet ++ [(⟨i0, fe⟩ : Doc)]) ++ builtDocs (i0 + 1) rest,
                  none⟩ : ManagerState), ad', evs') = _
            rw [List.append_assoc]
            rfl
          · cases hinv with
            | inl h =>
                by_cases haf : some fe = af
                · rw [if_pos haf] at h
                  refine Or.inr ⟨⟨i0, fe⟩, ?_, h⟩
                  exact List.mem_cons_self _ _
                · rw [if_neg haf] at h
                  exact Or.inl h
            | inr h =>
                obtain ⟨d, hd, he⟩ := h
                exact Or.inr ⟨d, List.mem_cons_of_mem _ hd, he⟩

theorem pathsOfSlots_map (res : Nat → Option FileEntry) (l : List Nat) :
    pathsOfSlots (l.map res) = (l.filterMap res).map FileEntry.fullPath := by
  unfold pathsOfSlots
  rw [List.filterMap_map, List.map_filterMap]
  rfl

theorem resolveFile_idx (files : List PrefEntry) (resolves : Nat → Bool)
    (j : Nat) (fe : FileEntry)
    (h : resolveFile files resolves j = some fe) : fe.idx = j := by
  unfold resolveFile at h
  by_cases hr : resolves j
  · rw [if_pos hr] at h
    cases hfj : files[j]? with
    | none =>
        rw [hfj] at h
        cases h
    | some p =>
        rw [hfj] at h
        simp only [Option.map_some'] at h
        injection h with h2
        rw [← h2]
  · rw [if_neg hr] at h
    cases h

theorem builtDocs_map_range' (res : Nat → Option FileEntry)
    (h : ∀ j fe, res j = some fe → fe.idx = j) :
    ∀ (m i0 : Nat), builtDocs i0 ((List.range' i0 m).map res)
      = ((List.range' i0 m).filterMap res).map (fun fe => Doc.mk fe.idx fe) := by
  intro m
  induction m with
  | zero => intro i0; rfl
  | succ m ih =>
      intro i0
      rw [List.range'_succ]
      cases hr : res i0 with
      | none => simp [List.filterMap_cons, hr, builtDocs, ih]
      | some fe => simp [List.filterMap_cons, hr, builtDocs, ih, h i0 fe hr]

theorem restoreFinish_workingSet (iw : String → Bool) (s : ManagerState)
    (ad : JVal Doc) (evs : List Event)
    (h : ad = JVal.undef ∨ ∃ d ∈ s.workingSet, ad = JVal.val d) :
    (restoreFinish iw (s, ad, evs)).1.workingSet = s.workingSet := by
  rcases h with h | ⟨d, hd, h⟩
  · subst h
    rfl
  · subst h
    show ((showInEditor iw d s).1).workingSet = s.workingSet
    exact showInEditor_workingSet_of_found iw d s
      (@findInWorkingSet_ne_none_of_mem d.file s.workingSet d hd rfl)

/-- C4: during restore, entries whose path fails to resolve are dropped
and the survivors enter the working set in their original stored order,
whatever the completion order of the concurrent path checks (`arrival` is
an arbitrary permutation of the stored indices, and the resulting working
set does not mention it); moreover for the stored list
[("A", inactive), ("B", active), ("C", inactive)] with "A" failing to
resolve, any completion order yields the working set [docB, docC] in that
order with docB current. -/
theorem initRestore_order (iw : String → Bool) (files : List PrefEntry)
    (resolves : Nat → Bool) (arrival : List Nat)
    (hperm : arrival.Perm (List.range files.length))
    (hnodup : ((survivingFiles files resolves).map FileEntry.fullPath).Nodup) :
    (∃ s evs, initRestore iw files resolves arrival = .ok (s, evs)
      ∧ s.workingSet
          = (survivingFiles files resolves).map (fun fe => Doc.mk fe.idx fe))
    ∧ (∀ arr2 : List Nat, arr2.Perm (List.range 3) →
        initRestore (fun _ => true) [⟨"A", false⟩, ⟨"B", true⟩, ⟨"C", false⟩]
          (fun i => decide (i ≠ 0)) arr2
        = .ok (⟨[⟨1, ⟨1, "B"⟩⟩, ⟨2, ⟨2, "C"⟩⟩], some ⟨1, ⟨1, "B"⟩⟩⟩,
               [Event.workingSetAdd ⟨1, ⟨1, "B"⟩⟩,
                Event.workingSetAdd ⟨2, ⟨2, "C"⟩⟩,
                Event.currentDocumentChange])) := by
  constructor
  · have hF := filesToOpenOf_perm files resolves arrival hperm
    have hnodupSlots : (pathsOfSlots ((List.range files.length).map
        (resolveFile files resolves))).Nodup := by
      rw [pathsOfSlots_map]
      exact hnodup
    obtain ⟨ad', evs', hloop, hinv⟩ := restoreLoop_ok
      (activeFileOf files resolves arrival)
      ((List.range files.length).map (resolveFile files resolves)) 0
      ⟨[], none⟩ JVal.undef [] rfl
      (fun fe hfe => rfl) hnodupSlots
    have hinit : initRestore iw files resolves arrival
        = .ok (restoreFinish iw
            ((⟨[] ++ builtDocs 0 ((List.range files.length).map
                (resolveFile files resolves)), none⟩ : ManagerState), ad', evs')) := by
      unfold initRestore
      rw [hF, hloop]
    have hws : ([] : List Doc) ++ builtDocs 0 ((List.range files.length).map
        (resolveFile files resolves))
        = (survivingFiles files resolves).map (fun fe => Doc.mk fe.idx fe) := by
      rw [List.nil_append, List.range_eq_range',
        builtDocs_map_range' (resolveFile files resolves)
          (resolveFile_idx files resolves) files.length 0]
      unfold survivingFiles
      rw [List.range_eq_range']
    refine ⟨(restoreFinish iw
        ((⟨[] ++ builtDocs 0 ((List.range files.length).map
            (resolveFile files resolves)), none⟩ : ManagerState), ad', evs')).1,
      (restoreFinish iw
        ((⟨[] ++ builtDocs 0 ((List.range files.length).map
            (resolveFile files resolves)), none⟩ : ManagerState), ad', evs')).2,
      ?_, ?_⟩
    · rw [hinit]
    · rw [restoreFinish_workingSet iw _ ad' evs' hinv]
      exact hws
  · intro arr2 hp2
    have hF2 := filesToOpenOf_perm [⟨"A", false⟩, ⟨"B", true⟩, ⟨"C", false⟩]
      (fun i => decide (i ≠ 0)) arr2 hp2
    have hk : (1 : Nat) ∈ arr2 := hp2.mem_iff.mpr (by decide)
    have huniq : ∀ i ∈ arr2,
        activeHit [⟨"A", false⟩, ⟨"B", true⟩, ⟨"C", false⟩]
          (resolveFile [⟨"A", false⟩, ⟨"B", true⟩, ⟨"C", false⟩]
            (fun i => decide (i ≠ 0))) i → i = 1 := by
      intro i hi hhit
      have h3 : i < 3 := List.mem_range.mp (hp2.mem_iff.mp hi)
      interval_cases i
      · exact absurd hhit.1 (by decide)
      · rfl
      · exact absurd hhit.2 (by decide)
    have hA2 : activeFileOf [⟨"A", false⟩, ⟨"B", true⟩, ⟨"C", false⟩]
        (fun i => decide (i ≠ 0)) arr2 = some ⟨1, "B"⟩ := by
      unfold activeFileOf
      rw [activeFold_unique _ _ 1 arr2 none hk ⟨by decide, by decide⟩ huniq]
      rfl
    unfold initRestore
    rw [hF2, hA2]
    rfl

/-- Witness for `initRestore_order` at a concrete input: completion
order [2, 0, 1] still restores [docB, docC] with docB current. -/
theorem initRestore_order_witness :
    initRestore (fun _ => true) [⟨"A", false⟩, ⟨"B", true⟩, ⟨"C", false⟩]
      (fun i => decide (i ≠ 0)) [2, 0, 1]
    = .ok (⟨[⟨1, ⟨1, "B"⟩⟩, ⟨2, ⟨2, "C"⟩⟩], some ⟨1, ⟨1, "B"⟩⟩⟩,
           [Event.workingSetAdd ⟨1, ⟨1, "B"⟩⟩, Event.workingSetAdd ⟨2, ⟨2, "C"⟩⟩,
            Event.currentDocumentChange]) :=
  (initRestore_order (fun _ => true) [⟨"A", false⟩, ⟨"B", true⟩, ⟨"C", false⟩]
    (fun i => decide (i ≠ 0)) [2, 0, 1] (by decide) (by decide)).2 [2, 0, 1]
    (by decide)
